import Mathlib

/-
Verification of the moat network-egress firewall component and the demo
scripts of this repository.

The firewall core (policy matcher, forward proxy engine, TLS interception
layer, egress packet filter) is part of this repository but its sources are
not under src/; only the demo scripts that drive it are. Those parts are
modelled from the specification, as marked on each definition. The helper
functions of the demo scripts (make_request in examples/firewall/demo.py,
fibonacci in examples/claude-code/main.py) are translated directly from the
Python sources.
-/

/-! ### Character-list string helpers

The model works over the characters of a String (its data), so that every
definition evaluates by kernel reduction on concrete inputs. -/

/-- Lowercase a single ASCII character, as case-insensitive host matching
requires. -/
def lowerChar (c : Char) : Char :=
  if 65 ≤ c.toNat ∧ c.toNat ≤ 90 then Char.ofNat (c.toNat + 32) else c

/-- Lowercase every character and remove trailing dots. -/
def normChars (l : List Char) : List Char :=
  ((l.map lowerChar).reverse.dropWhile (fun c => c == '.')).reverse

/-- Modelled from the spec: hostname normalization of the Policy Matcher —
matching is case-insensitive and trailing dots are normalized away before
comparison. -/
def normalizeHost (h : String) : String := String.mk (normChars h.data)

/-- Does string s end with the string suf (on characters)? -/
def strEndsWith (s suf : String) : Bool := List.isSuffixOf suf.data s.data

/-- First n characters of a string, as Python slicing s[:n] takes them. -/
def strTake (s : String) (n : Nat) : String := String.mk (s.data.take n)

/-- Does the character list l contain pat as a contiguous sublist? -/
def hasSubChars (pat : List Char) : List Char → Bool
  | [] => pat.isEmpty
  | c :: rest => pat.isPrefixOf (c :: rest) || hasSubChars pat rest

/-- Substring test, as the Python expression pat in s performs it. -/
def strContains (s pat : String) : Bool := hasSubChars pat.data s.data

/-! ### Policy Matcher (modelled from the spec) -/

/-- Outcome of evaluating a host against the allow-list. -/
inductive Decision
  | Allowed
  | Denied
deriving DecidableEq

/-- Modelled from the spec: a PolicyRule pattern is either an exact hostname
or a wildcard of the form star-dot-suffix; the proxy implementation holding
this data model is not under src/. -/
inductive PolicyRule
  | exact (pattern : String)
  | wildcard (suffix : String)
deriving DecidableEq

/-- Modelled from the spec: rule matching of the Policy Matcher. An exact
rule matches when the normalized pattern equals the normalized host; a
wildcard rule for suffix matches h iff h ends with dot-suffix and h is not
the bare suffix, both after normalization. -/
def PolicyRule.matchesHost : PolicyRule → String → Bool
  | .exact p, h => normalizeHost p == normalizeHost h
  | .wildcard suf, h =>
      strEndsWith (normalizeHost h) ("." ++ normalizeHost suf) &&
      normalizeHost h != normalizeHost suf

/-- Modelled from the spec: Evaluate(host) of the Policy Matcher — Allowed
when some rule of the allow-list matches (match is existential over the rule
set), Denied otherwise (default-deny). -/
def Evaluate (rules : List PolicyRule) (host : String) : Decision :=
  if rules.any (fun r => r.matchesHost host) then .Allowed else .Denied

/-! ### Theorems for the Policy Matcher -/

/-- C1: Evaluate(h) = Allowed when h equals the pattern of some exact
allow-list rule, and Evaluate(h) = Denied when h matches no rule at all
(neither exactly nor by wildcard): the allow-list is default-deny. -/
theorem evaluate_exact_allow_default_deny (rules : List PolicyRule) (h : String) :
    (PolicyRule.exact h ∈ rules → Evaluate rules h = Decision.Allowed) ∧
    ((∀ r ∈ rules, r.matchesHost h = false) → Evaluate rules h = Decision.Denied) := by
  constructor
  · intro hmem
    have hany : rules.any (fun r => r.matchesHost h) = true :=
      List.any_eq_true.2 ⟨PolicyRule.exact h, hmem, by simp [PolicyRule.matchesHost]⟩
    simp [Evaluate, hany]
  · intro hall
    have hany : rules.any (fun r => r.matchesHost h) = false := by
      simp only [List.any_eq_false]
      intro r hr
      simp [hall r hr]
    simp [Evaluate, hany]

/-- C2: a wildcard rule for suffix matches host h iff (after normalization)
h ends with dot-suffix and h differs from the bare suffix; in particular the
wildcard for example.org allows a.example.org and a.b.example.org but denies
bare example.org, case-insensitively and ignoring trailing dots. -/
theorem wildcard_matches_iff_proper_subdomain :
    (∀ suffix h, (PolicyRule.wildcard suffix).matchesHost h = true ↔
        strEndsWith (normalizeHost h) ("." ++ normalizeHost suffix) = true ∧
        normalizeHost h ≠ normalizeHost suffix) ∧
    Evaluate [PolicyRule.wildcard "example.org"] "a.example.org" = Decision.Allowed ∧
    Evaluate [PolicyRule.wildcard "example.org"] "a.b.example.org" = Decision.Allowed ∧
    Evaluate [PolicyRule.wildcard "example.org"] "example.org" = Decision.Denied ∧
    Evaluate [PolicyRule.wildcard "Example.ORG"] "A.EXAMPLE.org." = Decision.Allowed := by
  refine ⟨?_, by decide, by decide, by decide, by decide⟩
  intro suffix h
  simp [PolicyRule.matchesHost, Bool.and_eq_true, bne_iff_ne]

/-! ### Forward Proxy Engine: responses (modelled from the spec) -/

/-- An HTTP response as the client observes it. -/
structure HttpResponse where
  status : Nat
  headers : List (String × String)
  body : String
deriving DecidableEq

/-- Modelled from the spec: the synthetic denial response of the Forward
Proxy Engine — status 407, a diagnostic header naming the blocked host, and
a plaintext body naming the blocked host and the policy reason. -/
def denialResponse (host reason : String) : HttpResponse :=
  { status := 407
    headers := [("X-Moat-Blocked", host)]
    body := host ++ (" blocked by network policy: " ++ reason) }

/-- Modelled from the spec: gateway-style error returned when the origin is
unreachable after policy allowed the request (OriginUnreachable). -/
def gatewayError : HttpResponse :=
  { status := 502, headers := [], body := "origin unreachable" }

/-- Modelled from the spec: header names the proxy strips or injects
(proxy-specific headers, not forwarded verbatim). -/
def proxyHeaderNames : List String :=
  ["X-Moat-Blocked", "Proxy-Authenticate", "Proxy-Connection"]

/-- Modelled from the spec: relay of an allowed origin response — status and
body preserved verbatim, headers preserved except proxy-specific ones. -/
def relayResponse (origin : HttpResponse) : HttpResponse :=
  { status := origin.status
    headers := origin.headers.filter (fun p => !(proxyHeaderNames.contains p.1))
    body := origin.body }

/-- Modelled from the spec: end-to-end handling of one request by the
Forward Proxy Engine — evaluate policy first; denied requests get the
synthetic 407 without consulting the origin; allowed requests relay the
origin response, or a gateway error when the origin is unreachable. -/
def handleRequest (rules : List PolicyRule) (host : String)
    (originReachable : Bool) (originResp : HttpResponse) : HttpResponse :=
  match Evaluate rules host with
  | .Denied => denialResponse host "host not in allow list"
  | .Allowed => if originReachable then relayResponse originResp else gatewayError

/-- C3: a request to a denied host always yields status 407 with the
X-Moat-Blocked diagnostic header naming the host and a plaintext body naming
the host and the policy reason, independent of origin reachability (the
response function is total: never a hang or a generic reset). -/
theorem denied_request_yields_407_diagnostics (rules : List PolicyRule) (host : String)
    (hd : Evaluate rules host = Decision.Denied)
    (reach : Bool) (resp : HttpResponse) :
    (handleRequest rules host reach resp).status = 407 ∧
    ("X-Moat-Blocked", host) ∈ (handleRequest rules host reach resp).headers ∧
    (∃ rest, (handleRequest rules host reach resp).body = host ++ rest ∧
      (∃ mid, rest = mid ++ "host not in allow list")) ∧
    (∀ reach2 resp2, handleRequest rules host reach resp =
      handleRequest rules host reach2 resp2) := by
  have hh : ∀ (b : Bool) (r : HttpResponse),
      handleRequest rules host b r = denialResponse host "host not in allow list" := by
    intro b r
    simp [handleRequest, hd]
  refine ⟨by rw [hh]; rfl, by rw [hh]; simp [denialResponse], ?_, ?_⟩
  · exact ⟨" blocked by network policy: " ++ "host not in allow list",
      by rw [hh]; rfl, " blocked by network policy: ", rfl⟩
  · intro reach2 resp2
    rw [hh, hh]

/-- Witness for C3 at a concrete denied host, as the demo exercises:
example.com against the httpbin.org allow-list. -/
theorem denied_request_yields_407_diagnostics_w :
    (handleRequest [PolicyRule.exact "httpbin.org", PolicyRule.wildcard "httpbin.org"]
      "example.com" true ⟨200, [], "origin page"⟩).status = 407 ∧
    ("X-Moat-Blocked", "example.com") ∈
      (handleRequest [PolicyRule.exact "httpbin.org", PolicyRule.wildcard "httpbin.org"]
        "example.com" true ⟨200, [], "origin page"⟩).headers :=
  ⟨(denied_request_yields_407_diagnostics _ _ (by decide) _ _).1,
   (denied_request_yields_407_diagnostics _ _ (by decide) _ _).2.1⟩

/-- C6: a request to an allowed host returns the origin response with status
and body unmodified and every non-proxy-specific header preserved; every
header the client sees came from the origin. -/
theorem allowed_request_relays_origin_verbatim (rules : List PolicyRule) (host : String)
    (ha : Evaluate rules host = Decision.Allowed) (resp : HttpResponse) :
    (handleRequest rules host true resp).status = resp.status ∧
    (handleRequest rules host true resp).body = resp.body ∧
    (∀ p ∈ resp.headers, proxyHeaderNames.contains p.1 = false →
      p ∈ (handleRequest rules host true resp).headers) ∧
    (∀ p ∈ (handleRequest rules host true resp).headers, p ∈ resp.headers) := by
  have hh : handleRequest rules host true resp = relayResponse resp := by
    simp [handleRequest, ha]
  rw [hh]
  refine ⟨rfl, rfl, ?_, ?_⟩
  · intro p hp hnp
    have hnm : p.1 ∉ proxyHeaderNames := by simpa using hnp
    simp [relayResponse, List.mem_filter, hp, hnm]
  · intro p hp
    simp only [relayResponse, List.mem_filter] at hp
    exact hp.1

/-- Witness for C6: a 200 response from httpbin.org with a JSON body is
relayed with status, body and content-type header intact. -/
theorem allowed_request_relays_origin_verbatim_w :
    (handleRequest [PolicyRule.exact "httpbin.org"] "httpbin.org" true
      ⟨200, [("Content-Type", "application/json")], "origin json body"⟩).status = 200 ∧
    (handleRequest [PolicyRule.exact "httpbin.org"] "httpbin.org" true
      ⟨200, [("Content-Type", "application/json")], "origin json body"⟩).body =
      "origin json body" ∧
    ("Content-Type", "application/json") ∈
      (handleRequest [PolicyRule.exact "httpbin.org"] "httpbin.org" true
        ⟨200, [("Content-Type", "application/json")], "origin json body"⟩).headers :=
  ⟨(allowed_request_relays_origin_verbatim _ _ (by decide) _).1,
   (allowed_request_relays_origin_verbatim _ _ (by decide) _).2.1,
   (allowed_request_relays_origin_verbatim _ _ (by decide) _).2.2.1
     ("Content-Type", "application/json") (by decide) (by decide)⟩

/-! ### Egress Packet Filter (modelled from the spec) -/

/-- Observable outcome of an outbound TCP connection attempt. -/
inductive ConnOutcome
  | success
  | refused
  | timedOut
deriving DecidableEq

/-- Modelled from the spec: the kernel-level Egress Packet Filter — traffic
from the proxy process passes through and keeps whatever outcome the network
gives it; any connection not originating from the proxy is denied, failing
fast with a refusal when active reset is available and with a bounded
timeout otherwise. -/
def egressFilter (fromProxy canReset : Bool) (attempted : ConnOutcome) : ConnOutcome :=
  if fromProxy then attempted
  else if canReset then .refused else .timedOut

/-- C4: an outbound TCP connection bypassing the proxy (a raw socket not
originating from the proxy process) never succeeds: it is either refused
immediately or times out. -/
theorem bypass_connection_never_succeeds (fromProxy canReset : Bool)
    (attempted : ConnOutcome) (hb : fromProxy = false) :
    egressFilter fromProxy canReset attempted ≠ ConnOutcome.success ∧
    (egressFilter fromProxy canReset attempted = ConnOutcome.refused ∨
     egressFilter fromProxy canReset attempted = ConnOutcome.timedOut) := by
  subst hb
  cases canReset <;> simp [egressFilter]

/-- Witness for C4: the raw-socket attempt of the demo (direct connect to
example.com on port 80, which would otherwise succeed) is blocked. -/
theorem bypass_connection_never_succeeds_w :
    egressFilter false false ConnOutcome.success ≠ ConnOutcome.success ∧
    (egressFilter false false ConnOutcome.success = ConnOutcome.refused ∨
     egressFilter false false ConnOutcome.success = ConnOutcome.timedOut) :=
  bypass_connection_never_succeeds false false ConnOutcome.success rfl

/-! ### Forward Proxy Engine: per-connection event traces (modelled from the spec) -/

/-- Observable network-level events the proxy emits while handling one
connection. -/
inductive ProxyEvent
  | originConnect (host : String)
  | relayBytes (up down : Nat)
  | respond (status : Nat)
  | closeConn
deriving DecidableEq

/-- Modelled from the spec: the sequence of events for one connection —
denied connections answer 407 and close without any origin-bound event;
allowed connections open the origin leg and pump byte chunks until close,
or answer a gateway error when the origin is unreachable. -/
def connectionEvents (rules : List PolicyRule) (host : String)
    (originReachable : Bool) (chunks : List (Nat × Nat)) : List ProxyEvent :=
  match Evaluate rules host with
  | .Denied => [.respond 407, .closeConn]
  | .Allowed =>
      if originReachable then
        .originConnect host ::
          (chunks.map (fun c => ProxyEvent.relayBytes c.1 c.2) ++ [.closeConn])
      else [.originConnect host, .respond 502, .closeConn]

/-- C5: for a denied connection the proxy never attempts an origin
connection — no originConnect event ever occurs in its trace — and the
trace is independent of origin reachability and traffic, so denial latency
cannot depend on the origin. -/
theorem denied_connection_no_origin_contact (rules : List PolicyRule) (host : String)
    (hd : Evaluate rules host = Decision.Denied)
    (reach : Bool) (chunks : List (Nat × Nat)) :
    (∀ h2, ProxyEvent.originConnect h2 ∉ connectionEvents rules host reach chunks) ∧
    (∀ reach2 chunks2, connectionEvents rules host reach chunks =
      connectionEvents rules host reach2 chunks2) := by
  have hh : ∀ (b : Bool) (cs : List (Nat × Nat)),
      connectionEvents rules host b cs = [.respond 407, .closeConn] := by
    intro b cs
    simp [connectionEvents, hd]
  constructor
  · intro h2
    rw [hh]
    simp
  · intro reach2 chunks2
    rw [hh, hh]

/-- Witness for C5: the trace for blocked example.com holds no origin
connection event, whether or not the origin is reachable. -/
theorem denied_connection_no_origin_contact_w :
    ProxyEvent.originConnect "example.com" ∉
      connectionEvents [PolicyRule.exact "httpbin.org"] "example.com" true [(3, 5)] ∧
    connectionEvents [PolicyRule.exact "httpbin.org"] "example.com" true [(3, 5)] =
      connectionEvents [PolicyRule.exact "httpbin.org"] "example.com" false [] :=
  ⟨(denied_connection_no_origin_contact _ _ (by decide) _ _).1 "example.com",
   (denied_connection_no_origin_contact _ _ (by decide) _ _).2 false []⟩

/-! ### ConnectionContext state machine (modelled from the spec) -/

/-- Modelled from the spec: per in-flight connection state — the requested
host, the policy decision (none until the Policy Matcher has run), and the
byte counters of the tunnel. -/
structure ConnectionContext where
  requestedHost : String
  decision : Option Decision
  bytesUp : Nat
  bytesDown : Nat
deriving DecidableEq

/-- Modelled from the spec: the per-connection states of the Forward Proxy
Engine, AwaitingRequest → DecidingPolicy → (Relaying | Denying) → Closed. -/
inductive EngineState
  | awaitingRequest
  | decidingPolicy
  | relaying
  | denying
  | closedConn
deriving DecidableEq

/-- Relay phase of an allowed connection: one Relaying state per byte chunk
pumped, accumulating the byte counters of the context. -/
def relaySteps (c : ConnectionContext) : List (Nat × Nat) → List (EngineState × ConnectionContext)
  | [] => []
  | (u, d) :: rest =>
      (.relaying, { c with bytesUp := c.bytesUp + u, bytesDown := c.bytesDown + d }) ::
        relaySteps { c with bytesUp := c.bytesUp + u, bytesDown := c.bytesDown + d } rest

/-- Context at the end of the relay phase. -/
def relayFinal (c : ConnectionContext) : List (Nat × Nat) → ConnectionContext
  | [] => c
  | (u, d) :: rest =>
      relayFinal { c with bytesUp := c.bytesUp + u, bytesDown := c.bytesDown + d } rest

/-- Modelled from the spec: the life of one connection as the list of
successive engine states with their contexts — the context starts with no
decision, the Policy Matcher fixes the decision on the transition out of
DecidingPolicy, denied connections go to Denying and close without relaying,
allowed connections relay the given byte chunks and close. -/
def connectionTrace (rules : List PolicyRule) (host : String)
    (chunks : List (Nat × Nat)) : List (EngineState × ConnectionContext) :=
  match Evaluate rules host with
  | .Denied =>
      [(.awaitingRequest, ⟨host, none, 0, 0⟩), (.decidingPolicy, ⟨host, none, 0, 0⟩),
       (.denying, ⟨host, some .Denied, 0, 0⟩), (.closedConn, ⟨host, some .Denied, 0, 0⟩)]
  | .Allowed =>
      (.awaitingRequest, ⟨host, none, 0, 0⟩) :: (.decidingPolicy, ⟨host, none, 0, 0⟩) ::
        (relaySteps ⟨host, some .Allowed, 0, 0⟩ chunks ++
          [(.closedConn, relayFinal ⟨host, some .Allowed, 0, 0⟩ chunks)])

/-- Every state of the relay phase carries the decision the context entered
it with, unchanged. -/
theorem relaySteps_decision (chunks : List (Nat × Nat)) :
    ∀ (c : ConnectionContext), ∀ p ∈ relaySteps c chunks, p.2.decision = c.decision := by
  induction chunks with
  | nil => intro c p hp; simp [relaySteps] at hp
  | cons ch rest ih =>
      intro c p hp
      obtain ⟨u, d⟩ := ch
      simp only [relaySteps, List.mem_cons] at hp
      rcases hp with rfl | hp
      · rfl
      · have h2 := ih { c with bytesUp := c.bytesUp + u, bytesDown := c.bytesDown + d } p hp
        exact h2

/-- The final context of the relay phase carries the decision unchanged. -/
theorem relayFinal_decision (chunks : List (Nat × Nat)) :
    ∀ (c : ConnectionContext), (relayFinal c chunks).decision = c.decision := by
  induction chunks with
  | nil => intro c; rfl
  | cons ch rest ih =>
      intro c
      obtain ⟨u, d⟩ := ch
      simp only [relayFinal]
      exact ih _

/-- The decisions along the relay phase, as a list: the unchanged decision,
once per chunk. -/
theorem relaySteps_map_decision (chunks : List (Nat × Nat)) :
    ∀ (c : ConnectionContext),
      (relaySteps c chunks).map (fun p => p.2.decision) =
        List.replicate chunks.length c.decision := by
  induction chunks with
  | nil => intro c; rfl
  | cons ch rest ih =>
      intro c
      obtain ⟨u, d⟩ := ch
      simp only [relaySteps, List.map_cons, List.length_cons, List.replicate_succ, ih]

/-- C7: along every connection trace the decision field is none for an
initial segment and then the Policy Matcher verdict forever after (set
exactly once, never changed); every Relaying state already carries the
verdict; and any state with a nonzero byte counter already carries the
verdict — the decision is fixed before any byte of the tunnel is relayed. -/
theorem decision_set_once_before_relay (rules : List PolicyRule) (host : String)
    (chunks : List (Nat × Nat)) :
    (∃ k m, (connectionTrace rules host chunks).map (fun p => p.2.decision) =
        List.replicate k none ++ List.replicate m (some (Evaluate rules host))) ∧
    (∀ p ∈ connectionTrace rules host chunks, p.1 = EngineState.relaying →
        p.2.decision = some (Evaluate rules host)) ∧
    (∀ p ∈ connectionTrace rules host chunks, p.2.bytesUp + p.2.bytesDown ≠ 0 →
        p.2.decision = some (Evaluate rules host)) := by
  cases hd : Evaluate rules host with
  | Denied =>
      refine ⟨⟨2, 2, ?_⟩, ?_, ?_⟩
      · simp [connectionTrace, hd, List.replicate]
      · intro p hp hrel
        simp only [connectionTrace, hd, List.mem_cons, List.not_mem_nil, or_false] at hp
        rcases hp with rfl | rfl | rfl | rfl <;> simp_all
      · intro p hp hb
        simp only [connectionTrace, hd, List.mem_cons, List.not_mem_nil, or_false] at hp
        rcases hp with rfl | rfl | rfl | rfl <;> simp_all
  | Allowed =>
      have hmem : ∀ p ∈ connectionTrace rules host chunks,
          p = (.awaitingRequest, (⟨host, none, 0, 0⟩ : ConnectionContext)) ∨
          p = (.decidingPolicy, (⟨host, none, 0, 0⟩ : ConnectionContext)) ∨
          p ∈ relaySteps ⟨host, some .Allowed, 0, 0⟩ chunks ∨
          p = (.closedConn, relayFinal ⟨host, some .Allowed, 0, 0⟩ chunks) := by
        intro p hp
        simp only [connectionTrace, hd, List.mem_cons, List.mem_append,
          List.mem_singleton] at hp
        tauto
      refine ⟨⟨2, chunks.length + 1, ?_⟩, ?_, ?_⟩
      · have hmap : (connectionTrace rules host chunks).map (fun p => p.2.decision) =
            none :: none :: (List.replicate chunks.length (some Decision.Allowed) ++
              [some Decision.Allowed]) := by
          simp only [connectionTrace, hd, List.map_cons, List.map_append,
            relaySteps_map_decision, List.map_nil, relayFinal_decision]
        rw [hmap, List.replicate_succ' chunks.length]
        rfl
      · intro p hp hrel
        rcases hmem p hp with rfl | rfl | hp2 | rfl
        · simp at hrel
        · simp at hrel
        · rw [relaySteps_decision chunks _ p hp2]
        · rw [relayFinal_decision]
      · intro p hp hb
        rcases hmem p hp with rfl | rfl | hp2 | rfl
        · simp at hb
        · simp at hb
        · rw [relaySteps_decision chunks _ p hp2]
        · rw [relayFinal_decision]

/-! ### TLS Interception Layer (modelled from the spec) -/

/-- Result of driving the TLS interception layer for one inbound handshake:
interception succeeded for the SNI host, or the connection was aborted with
a reason, or (never produced) a non-intercepted passthrough. -/
inductive TlsResult
  | intercepted (host : String)
  | aborted (reason : String)
  | passthrough
deriving DecidableEq

/-- Modelled from the spec: the TLS Interception Layer — extract the host
from the SNI (fail the handshake when absent), look up or mint a leaf
certificate (fail on cache failure or signing failure), and only then
complete the inbound handshake; failure never downgrades to passthrough. -/
def interceptTls (sni : Option String) (signOk cacheOk : Bool) : TlsResult :=
  match sni with
  | none => .aborted "SNI missing"
  | some h =>
      if cacheOk = false then .aborted "certificate cache failure"
      else if signOk = false then .aborted "leaf signing failure"
      else .intercepted h

/-- Modelled from the spec: events of an HTTPS connection driven through the
interception layer — an aborted handshake closes the connection before any
relay; only a successful interception reaches the Forward Proxy Engine. -/
def tlsConnectionEvents (sni : Option String) (signOk cacheOk : Bool)
    (rules : List PolicyRule) (reach : Bool) (chunks : List (Nat × Nat)) :
    List ProxyEvent :=
  match interceptTls sni signOk cacheOk with
  | .aborted _ => [.closeConn]
  | .passthrough => []
  | .intercepted h => connectionEvents rules h reach chunks

/-- C8: whenever TLS interception fails — SNI absent, leaf signing failure,
or certificate-cache failure — the result is an abort, never a passthrough,
and the connection closes before any relay or origin event occurs. -/
theorem tls_failure_aborts_never_passthrough (sni : Option String) (signOk cacheOk : Bool)
    (hfail : sni = none ∨ signOk = false ∨ cacheOk = false) :
    (∃ r, interceptTls sni signOk cacheOk = TlsResult.aborted r) ∧
    interceptTls sni signOk cacheOk ≠ TlsResult.passthrough ∧
    (∀ rules reach chunks,
      tlsConnectionEvents sni signOk cacheOk rules reach chunks = [ProxyEvent.closeConn]) := by
  have habort : ∃ r, interceptTls sni signOk cacheOk = TlsResult.aborted r := by
    cases sni with
    | none => exact ⟨"SNI missing", rfl⟩
    | some h =>
        rcases hfail with hs | hs | hs
        · cases hs
        · cases hc : cacheOk with
          | false => exact ⟨"certificate cache failure", by simp [interceptTls]⟩
          | true => exact ⟨"leaf signing failure", by simp [interceptTls, hs]⟩
        · exact ⟨"certificate cache failure", by simp [interceptTls, hs]⟩
  obtain ⟨r, hr⟩ := habort
  refine ⟨⟨r, hr⟩, by simp [hr], ?_⟩
  intro rules reach chunks
  simp [tlsConnectionEvents, hr]

/-- Witness for C8: a handshake without SNI is aborted and produces only a
connection close. -/
theorem tls_failure_aborts_never_passthrough_w :
    (∃ r, interceptTls none true true = TlsResult.aborted r) ∧
    interceptTls none true true ≠ TlsResult.passthrough ∧
    (∀ rules reach chunks,
      tlsConnectionEvents none true true rules reach chunks = [ProxyEvent.closeConn]) :=
  tls_failure_aborts_never_passthrough none true true (Or.inl rfl)

/-! ### make_request of examples/firewall/demo.py (from source) -/

/-- Outcome of the underlying urllib call inside make_request: a successful
response, an HTTPError carrying a status and readable body, or a URLError
carrying only a stringified reason. -/
inductive FetchOutcome
  | success (status : Nat) (body : String) (headers : List (String × String))
  | httpError (code : Nat) (body : String) (headers : List (String × String))
  | urlError (reason : String)
deriving DecidableEq

/-- Translated from make_request in src/examples/firewall/demo.py: a
successful response yields its status, the body truncated to the first 500
characters, and its headers; an HTTPError yields its code, full body and
headers; a URLError yields 407 with the reason as body and empty headers
when the text 407 occurs in the stringified reason, else 0 with empty
headers. -/
def make_request : FetchOutcome → Nat × String × List (String × String)
  | .success s b h => (s, strTake b 500, h)
  | .httpError c b h => (c, b, h)
  | .urlError r => if strContains r "407" then (407, r, []) else (0, r, [])

/-- C9: make_request always returns a triple (it is total, never raises):
on success the status with the body cut to 500 characters and the headers;
on HTTPError the code with the full body and headers; on URLError exactly
the wrapped-407 analysis of the stringified reason, with empty headers in
both URLError branches, so no diagnostic header is observable there. -/
theorem make_request_cases_and_wrapped_407 :
    (∀ s b h, make_request (FetchOutcome.success s b h) = (s, strTake b 500, h)) ∧
    (∀ c b h, make_request (FetchOutcome.httpError c b h) = (c, b, h)) ∧
    (∀ r, strContains r "407" = true →
      make_request (FetchOutcome.urlError r) = (407, r, [])) ∧
    (∀ r, strContains r "407" = false →
      make_request (FetchOutcome.urlError r) = (0, r, [])) ∧
    (∀ r v, ("X-Moat-Blocked", v) ∉ (make_request (FetchOutcome.urlError r)).2.2) := by
  refine ⟨fun s b h => rfl, fun c b h => rfl, ?_, ?_, ?_⟩
  · intro r hr
    simp [make_request, hr]
  · intro r hr
    simp [make_request, hr]
  · intro r v
    simp only [make_request]
    split <;> simp

/-- Witness for C9: the tunnel-failure reason Python produces for a proxy
407 contains the text 407, so the demo maps it to status 407 with empty
headers; a DNS-failure reason does not, and maps to status 0. -/
theorem make_request_cases_and_wrapped_407_w :
    make_request (FetchOutcome.urlError
      "Tunnel connection failed: 407 Proxy Authentication Required") =
      (407, "Tunnel connection failed: 407 Proxy Authentication Required", []) ∧
    make_request (FetchOutcome.urlError "Name or service not known") =
      (0, "Name or service not known", []) :=
  ⟨make_request_cases_and_wrapped_407.2.2.1
      "Tunnel connection failed: 407 Proxy Authentication Required" (by decide),
   make_request_cases_and_wrapped_407.2.2.2.1
      "Name or service not known" (by decide)⟩

/-! ### fibonacci of examples/claude-code/main.py (from source) -/

/-- Translated from fibonacci in src/examples/claude-code/main.py: returns n
for n at most 1 and otherwise recurses on n - 1 and n - 3 (the source
comments that n - 3 should have been n - 2). -/
def fibonacci (n : Int) : Int :=
  if n ≤ 1 then n else fibonacci (n - 1) + fibonacci (n - 3)
termination_by n.toNat
decreasing_by
  all_goals omega

/-- C10 (code bug): the function deviates from the Fibonacci recurrence at
its first composite input already — fibonacci 2 evaluates to 0 while the
second Fibonacci number is 1, so fibonacci does not compute the Fibonacci
sequence the docstring promises. -/
theorem fibonacci_two_is_zero_not_fib :
    fibonacci 2 = 0 ∧ (Nat.fib 2 : Int) = 1 ∧ fibonacci 2 ≠ (Nat.fib 2 : Int) := by
  have h1 : fibonacci 1 = 1 := by rw [fibonacci]; norm_num
  have hm : fibonacci (-1) = -1 := by rw [fibonacci]; norm_num
  have h2 : fibonacci 2 = 0 := by
    rw [fibonacci]
    norm_num [h1, hm]
  refine ⟨h2, by norm_num, ?_⟩
  rw [h2]
  norm_num
